import Mathlib

/-
Verification of the MDVM-FuncApp core logic (src/function_app.py) against its
design specification.  The Python functions are shallowly embedded as Lean
definitions: Python dicts become association lists, JSON scalar values become
the `JVal` type, wall-clock time becomes an explicit `now : Nat` parameter,
the HTTP server becomes an explicit function from URL to response, and the
potentially unbounded `while` loop becomes a fuel-indexed recursion returning
`none` when the fuel is exhausted before the loop exits.
-/

set_option autoImplicit false

namespace MDVM

/-- JSON-like scalar value, the payload type of a vulnerability record field.
Python truthiness and `str()` conversion are modelled explicitly. -/
inductive JVal where
  | str (s : String)
  | num (n : Int)
  | bool (b : Bool)
  | null
deriving DecidableEq, Repr

/-- Python truthiness of a scalar value: `""`, `0`, `False` and `None` are falsy. -/
def JVal.truthy : JVal → Bool
  | .str s => !s.isEmpty
  | .num n => n != 0
  | .bool b => b
  | .null => false

/-- Python `str()` of a scalar value, as used by f-string interpolation. -/
def JVal.pyStr : JVal → String
  | .str s => s
  | .num n => toString n
  | .bool b => if b then "True" else "False"
  | .null => "None"

/-- A vulnerability record: a Python dict modelled as an association list
from field name to value (keys unique by construction of dict operations). -/
abbrev Rec := List (String × JVal)

/-- First-match lookup in an association list; models Python `dict.get(k)`
(on dicts, whose keys are unique, first match is the only match). -/
def lookupA {α β : Type} [DecidableEq α] : List (α × β) → α → Option β
  | [], _ => none
  | (k, v) :: m, k' => if k = k' then some v else lookupA m k'

/-- In-place update of an association list: replaces the value at an existing
key, else appends; models Python `dict[k] = v`. -/
def updA {α β : Type} [DecidableEq α] : List (α × β) → α → β → List (α × β)
  | [], k, v => [(k, v)]
  | (k0, v0) :: m, k, v => if k0 = k then (k, v) :: m else (k0, v0) :: updA m k v

/-- Models `vuln.get(field)`: the record field's value if the key is present. -/
def getField (vuln : Rec) (field : String) : Option JVal :=
  lookupA vuln field

/-- The synthesized fallback key
`f"{software_name}_{software_version}"` with `"Unknown"` for absent fields,
from `_reorganize_vulnerabilities_by_hierarchy`. -/
def synthKey (vuln : Rec) : String :=
  ((getField vuln "softwareName").getD (.str "Unknown")).pyStr ++ "_" ++
    ((getField vuln "softwareVersion").getD (.str "Unknown")).pyStr

/-- The hierarchy key chosen for a record: its `cveId` value when present and
truthy, otherwise the synthesized software key (the `if not cve_id` branch). -/
def cveKeyOf (vuln : Rec) : JVal :=
  match getField vuln "cveId" with
  | some v => if v.truthy then v else .str (synthKey vuln)
  | none => .str (synthKey vuln)

/-- Models `vuln.get("osPlatform", "Unknown")`. -/
def platformOf (vuln : Rec) : JVal :=
  (getField vuln "osPlatform").getD (.str "Unknown")

/-- Models `vuln.get("deviceName", "Unknown")`. -/
def deviceOf (vuln : Rec) : JVal :=
  (getField vuln "deviceName").getD (.str "Unknown")

/-- The (platform, device, key) triple under which a record is filed. -/
def tripleOf (vuln : Rec) : JVal × JVal × JVal :=
  (platformOf vuln, deviceOf vuln, cveKeyOf vuln)

/-- Innermost level of the hierarchy: vulnerability key to record. -/
abbrev CveMap := List (JVal × Rec)

/-- Middle level: device name to its vulnerability map. -/
abbrev DevMap := List (JVal × CveMap)

/-- Outer level: platform to its device map. -/
abbrev Hier := List (JVal × DevMap)

/-- One iteration of the reorganization loop:
`reorganized.setdefault(os, {}).setdefault(dev, {})[cve_id] = vuln`. -/
def reorgStep (reorganized : Hier) (vuln : Rec) : Hier :=
  let os_platform := platformOf vuln
  let device_name := deviceOf vuln
  let cve_id := cveKeyOf vuln
  let devmap := (lookupA reorganized os_platform).getD []
  let cvemap := (lookupA devmap device_name).getD []
  updA reorganized os_platform (updA devmap device_name (updA cvemap cve_id vuln))

/-- Embedding of `_reorganize_vulnerabilities_by_hierarchy`: fold the flat record list into
the three-level hierarchy. Total by construction (no failure path). -/
def _reorganize_vulnerabilities_by_hierarchy (vulnerabilities : List Rec) : Hier :=
  vulnerabilities.foldl reorgStep []

/-- Three-level lookup in the hierarchy. -/
def lookup3 (h : Hier) (p d k : JVal) : Option Rec :=
  match lookupA h p with
  | none => none
  | some dm =>
    match lookupA dm d with
    | none => none
    | some cm => lookupA cm k

/-- Configuration of `urllib3.util.retry.Retry` as built in `_get_http_session`. -/
structure RetryConfig where
  total : Nat
  backoff_factor : Nat
  status_forcelist : List Nat
  allowed_methods : List String
deriving DecidableEq, Repr

/-- The retry strategy constructed in `_get_http_session` (src lines 27-32). -/
def retry_strategy : RetryConfig :=
  { total := 3
    backoff_factor := 1
    status_forcelist := [429, 500, 502, 503, 504]
    allowed_methods := ["GET", "POST"] }

/-- Whether the transport automatically retries a request of the given method
failing with the given status, per the configured strategy. -/
def retryPermitted (cfg : RetryConfig) (method : String) (status : Nat) : Bool :=
  cfg.allowed_methods.contains method && cfg.status_forcelist.contains status

/-- The function `_fetch_aad_token` issues the token via `_http_session.post` (src line 70). -/
def tokenRequestMethod : String := "POST"

/-- The `MAX_PAGE_SIZE` constant (src line 18). -/
def MAX_PAGE_SIZE : Int := 200000

/-- The `MAX_PAGES_LIMIT` constant (src line 19); 0 means unlimited. -/
def MAX_PAGES_LIMIT : Int := 0

/-- The `DEFAULT_PAGE_SIZE` constant (src line 16). -/
def DEFAULT_PAGE_SIZE : Int := 10

/-- The `DEFAULT_MAX_PAGES` constant (src line 17). -/
def DEFAULT_MAX_PAGES : Int := 5

/-- Models `min(max(int(pageSize), 1), MAX_PAGE_SIZE)` from `getMDVMData` (src line 229),
applied to the already-parsed integer. -/
def clampPageSize (n : Int) : Int :=
  min (max n 1) MAX_PAGE_SIZE

/-- The `max_pages` computation from `getMDVMData` (src lines 230-231):
clamp to ≥ 0, then cap by `MAX_PAGES_LIMIT` only when that limit is positive. -/
def clampMaxPages (n : Int) : Int :=
  let max_pages_input := max n 0
  if MAX_PAGES_LIMIT > 0 then min max_pages_input MAX_PAGES_LIMIT else max_pages_input

/-- A cached token with its absolute expiry time (seconds). -/
structure TokenEntry where
  token : String
  expires_at : Nat
deriving DecidableEq, Repr

/-- The global `_token_cache` dict. -/
abbrev TokenCache := List (String × TokenEntry)

/-- Models `f"{tenant_id}:{client_id}:{resource_app_id_uri}"` (src line 94);
the client secret is excluded from the key. -/
def cacheKeyOf (tenant_id client_id resource_app_id_uri : String) : String :=
  tenant_id ++ ":" ++ client_id ++ ":" ++ resource_app_id_uri

/-- Embedding of `_get_cached_token`, with explicit state: `cache` is the
`_token_cache` dict, `now` the value of `time.time()` during the call, and
`issued` the token the issuer (`_fetch_aad_token`) would return on this call.
Returns (returned token, updated cache, whether the issuer was invoked). -/
def _get_cached_token (cache : TokenCache) (now : Nat)
    (tenant_id client_id client_secret resource_app_id_uri : String)
    (issued : String) : String × TokenCache × Bool :=
  match lookupA cache (cacheKeyOf tenant_id client_id resource_app_id_uri) with
  | some cached_entry =>
    if now + 300 < cached_entry.expires_at then
      (cached_entry.token, cache, false)
    else
      (issued,
        updA cache (cacheKeyOf tenant_id client_id resource_app_id_uri)
          ⟨issued, now + 3600⟩, true)
  | none =>
    (issued,
      updA cache (cacheKeyOf tenant_id client_id resource_app_id_uri)
        ⟨issued, now + 3600⟩, true)

/-- Outcome of one HTTP GET against a page URL, after the transport's own
retries: a 2xx JSON body (its optional `"value"` list and optional
`"@odata.nextLink"`), a terminal HTTP error status with its optional
`Retry-After` header, or a connection-level failure. -/
inductive HttpResponse where
  | ok (value : Option (List Rec)) (nextLink : Option String)
  | httpError (status : Nat) (retryAfter : Option String)
  | connError
deriving Repr

/-- The classified errors `_fetch_mdvm_vulnerabilities` raises (as
`RuntimeError`s); `rateLimited` carries the `Retry-After` header value
interpolated into the message. -/
inductive FetchError where
  | unauthorized
  | forbidden
  | rateLimited (retryAfter : String)
  | serverError (status : Nat)
  | unexpectedStatus (status : Nat)
  | connectionFailure
deriving DecidableEq, Repr

/-- The status classification of the `except HTTPError` branch
(src lines 182-202): 401, 403, 429 (with `Retry-After` defaulting to "60"),
5xx, and everything else. -/
def classifyStatus (status : Nat) (retryAfter : Option String) : FetchError :=
  if status = 401 then .unauthorized
  else if status = 403 then .forbidden
  else if status = 429 then .rateLimited (retryAfter.getD "60")
  else if 500 ≤ status ∧ status < 600 then .serverError status
  else .unexpectedStatus status

/-- Python truthiness of the `current_url` variable: `None` and `""` are falsy. -/
def urlTruthy : Option String → Bool
  | none => false
  | some u => !u.isEmpty

/-- The `while current_url and (max_pages == 0 or pages_fetched < max_pages)`
loop of `_fetch_mdvm_vulnerabilities`, with the remote server modelled as a
function from URL to response and the iteration count bounded by `fuel`
(`none` = fuel exhausted before the loop exited).  On normal exit returns the
final `(current_url, pages_fetched, all_vulnerabilities)` state. -/
def fetchLoopAux (server : String → HttpResponse) (max_pages : Nat) :
    Nat → Option String → Nat → List Rec →
    Option (Except FetchError (Option String × Nat × List Rec))
  | fuel, current_url, pages_fetched, acc =>
    match current_url with
    | none => some (.ok (none, pages_fetched, acc))
    | some u =>
      if u.isEmpty then some (.ok (some u, pages_fetched, acc))
      else if max_pages ≠ 0 ∧ max_pages ≤ pages_fetched then
        some (.ok (some u, pages_fetched, acc))
      else
        match fuel with
        | 0 => none
        | fuel' + 1 =>
          match server u with
          | .ok value nextLink =>
            fetchLoopAux server max_pages fuel' nextLink (pages_fetched + 1)
              (acc ++ value.getD [])
          | .httpError status retryAfter => some (.error (classifyStatus status retryAfter))
          | .connError => some (.error .connectionFailure)

/-- The initial page URL `f"{base_url}?pageSize={page_size}"` (src line 150). -/
def initUrl (page_size : Nat) : String :=
  "https://api.securitycenter.microsoft.com/api/machines/SoftwareVulnerabilitiesByMachine?pageSize="
    ++ toString page_size

/-- The dict `_fetch_mdvm_vulnerabilities` returns (the wall-clock
`fetch_duration_seconds` field is not modelled). -/
structure FetchResult where
  vulnerabilities : List Rec
  total_count : Nat
  pages_fetched : Nat
  has_more_data : Bool
deriving DecidableEq, Repr

/-- Embedding of `_fetch_mdvm_vulnerabilities`: run the page loop from the initial URL and
package the final state; `has_more_data = bool(current_url)` (src line 218). -/
def _fetch_mdvm_vulnerabilities (server : String → HttpResponse)
    (page_size max_pages fuel : Nat) : Option (Except FetchError FetchResult) :=
  match fetchLoopAux server max_pages fuel (some (initUrl page_size)) 0 [] with
  | none => none
  | some (.error e) => some (.error e)
  | some (.ok (current_url, pages_fetched, all_vulnerabilities)) =>
    some (.ok
      { vulnerabilities := all_vulnerabilities
        total_count := all_vulnerabilities.length
        pages_fetched := pages_fetched
        has_more_data := urlTruthy current_url })

/-- A source serving, from URL `u`, at least `n` further successful pages each
carrying a truthy continuation link (so strictly more than `n` pages exist). -/
def serverOkChain (server : String → HttpResponse) : String → Nat → Bool
  | _, 0 => true
  | u, n + 1 =>
    match server u with
    | .ok _ (some u') => !u'.isEmpty && serverOkChain server u' n
    | _ => false

/-- A source whose pagination, starting from cursor `url`, ends naturally
after exactly `n` further successful pages (the `n`-th page carries no truthy
continuation link). -/
def sourceLen (server : String → HttpResponse) : Option String → Nat → Bool
  | url, 0 => !urlTruthy url
  | none, _ + 1 => false
  | some u, n + 1 =>
    !u.isEmpty &&
      match server u with
      | .ok _ nextLink => sourceLen server nextLink n
      | _ => false

/-- Test fixture: a server answering every URL with one final page. -/
def serverOnePage : String → HttpResponse := fun _ => .ok (some []) none

/-- Test fixture: a server answering every URL with a page that always has a
continuation link. -/
def serverEndless : String → HttpResponse := fun _ => .ok (some []) (some "next")

/-- Test fixture: a server answering every URL with 429 and `Retry-After: 45`. -/
def server429 : String → HttpResponse := fun _ => .httpError 429 (some "45")

/-- Test fixture: a server whose page body lacks the "value" field. -/
def serverNoValue : String → HttpResponse := fun _ => .ok none (some "next")

/-- Test fixture: the result of fetching one final empty page. -/
def onePageResult : FetchResult :=
  { vulnerabilities := [], total_count := 0, pages_fetched := 1, has_more_data := false }

/- ------------------------------------------------------------------ -/
/- Association-list lemmas                                             -/
/- ------------------------------------------------------------------ -/

theorem lookupA_updA_self {α β : Type} [DecidableEq α] (m : List (α × β)) (k : α) (v : β) :
    lookupA (updA m k v) k = some v := by
  induction m with
  | nil => simp [updA, lookupA]
  | cons p m ih =>
    obtain ⟨k0, v0⟩ := p
    by_cases h : k0 = k
    · subst h
      simp [updA, lookupA]
    · simp [updA, lookupA, h, ih]

theorem lookupA_updA_ne {α β : Type} [DecidableEq α] (m : List (α × β)) (k k' : α) (v : β)
    (hne : k ≠ k') : lookupA (updA m k v) k' = lookupA m k' := by
  induction m with
  | nil => simp [updA, lookupA, hne]
  | cons p m ih =>
    obtain ⟨k0, v0⟩ := p
    by_cases h : k0 = k
    · subst h
      simp [updA, lookupA, hne]
    · simp [updA, lookupA, h, ih]

theorem lookupA_mem {α β : Type} [DecidableEq α] (m : List (α × β)) (k : α) (v : β)
    (h : lookupA m k = some v) : (k, v) ∈ m := by
  induction m with
  | nil => simp [lookupA] at h
  | cons p m ih =>
    obtain ⟨k0, v0⟩ := p
    by_cases hk : k0 = k
    · subst hk
      simp [lookupA] at h
      simp [h]
    · simp [lookupA, hk] at h
      exact List.mem_cons_of_mem _ (ih h)

theorem updA_mem {α β : Type} [DecidableEq α] (m : List (α × β)) (k : α) (v : β)
    (p : α × β) (h : p ∈ updA m k v) : p = (k, v) ∨ p ∈ m := by
  induction m with
  | nil => simpa [updA] using h
  | cons q m ih =>
    obtain ⟨k0, v0⟩ := q
    by_cases hk : k0 = k
    · subst hk
      simp [updA] at h
      rcases h with h | h
      · exact Or.inl (by simp [h])
      · exact Or.inr (List.mem_cons_of_mem _ h)
    · simp [updA, hk] at h
      rcases h with h | h
      · exact Or.inr (by simp [h])
      · rcases ih h with h' | h'
        · exact Or.inl h'
        · exact Or.inr (List.mem_cons_of_mem _ h')

theorem mem_keys_updA {α β : Type} [DecidableEq α] (m : List (α × β)) (k a : α) (v : β)
    (h : a ∈ (updA m k v).map Prod.fst) : a = k ∨ a ∈ m.map Prod.fst := by
  simp only [List.mem_map] at h
  obtain ⟨p, hp, hfst⟩ := h
  rcases updA_mem m k v p hp with h' | h'
  · subst h'
    exact Or.inl (by rw [← hfst])
  · exact Or.inr (List.mem_map.mpr ⟨p, h', hfst⟩)

/-- Keys of an association list are pairwise distinct. -/
def keysNodup {α β : Type} (m : List (α × β)) : Prop :=
  (m.map Prod.fst).Nodup

theorem keysNodup_updA {α β : Type} [DecidableEq α] (m : List (α × β)) (k : α) (v : β)
    (h : keysNodup m) : keysNodup (updA m k v) := by
  induction m with
  | nil => simp [updA, keysNodup]
  | cons p m ih =>
    obtain ⟨k0, v0⟩ := p
    simp only [keysNodup, List.map_cons, List.nodup_cons] at h
    by_cases hk : k0 = k
    · subst hk
      simpa [updA, keysNodup] using h
    · have htail := ih h.2
      simp only [updA, hk, if_false, keysNodup, List.map_cons, List.nodup_cons]
      refine ⟨fun hmem => ?_, htail⟩
      rcases mem_keys_updA m k k0 v hmem with h' | h'
      · exact hk h'
      · exact h.1 h'

/- ------------------------------------------------------------------ -/
/- C3: transport retry policy and the token POST                       -/
/- ------------------------------------------------------------------ -/

/-- C3 counterexample: the claim says a token-issuance POST is never
automatically retried by the transport, but the `Retry` strategy built in
`_get_http_session` lists `"POST"` among its `allowed_methods`, so a POST to
the token endpoint failing with e.g. status 503 is automatically retried. -/
theorem token_post_is_retried :
    retryPermitted retry_strategy tokenRequestMethod 503 = true := by decide

/-- C3 (amended): the transport's bounded automatic retry (3 retries,
backoff factor 1, statuses 429/500/502/503/504) applies to POST exactly as to
GET — `allowed_methods = ["GET", "POST"]` — so the token-issuance POST is
automatically retried by the transport on those statuses, the same as a GET. -/
theorem retry_applies_to_get_and_post :
    retry_strategy.total = 3 ∧
    retry_strategy.backoff_factor = 1 ∧
    retry_strategy.status_forcelist = [429, 500, 502, 503, 504] ∧
    retry_strategy.allowed_methods = ["GET", "POST"] ∧
    ∀ status : Nat,
      retryPermitted retry_strategy tokenRequestMethod status =
        retryPermitted retry_strategy "GET" status := by
  refine ⟨rfl, rfl, rfl, rfl, fun status => ?_⟩
  simp [retryPermitted, retry_strategy, tokenRequestMethod]

/- ------------------------------------------------------------------ -/
/- C7: parameter clamping in the entry point                           -/
/- ------------------------------------------------------------------ -/

/-- C7: the entry point clamps the parsed `pageSize` into [1, 200000]
(so input -5 yields 1 and input 999999999 yields 200000), and clamps the
parsed `maxPages` to be at least 0. -/
theorem entry_point_clamping :
    clampPageSize (-5) = 1 ∧
    clampPageSize 999999999 = 200000 ∧
    (∀ n : Int, 1 ≤ clampPageSize n ∧ clampPageSize n ≤ 200000) ∧
    (∀ n : Int, 0 ≤ clampMaxPages n) := by
  refine ⟨by decide, by decide, fun n => ?_, fun n => ?_⟩
  · unfold clampPageSize MAX_PAGE_SIZE
    omega
  · unfold clampMaxPages MAX_PAGES_LIMIT
    norm_num

/- ------------------------------------------------------------------ -/
/- C4: token cache expiry buffer                                       -/
/- ------------------------------------------------------------------ -/

/-- C4: (1) `_get_cached_token` returns a cached token without invoking the
issuer only when the stored entry satisfies `expires_at > now + 300`, and then
it returns exactly that entry's token and leaves the cache unchanged;
(2) after a call that invoked the issuer at time `now1` (storing expiry
`now1 + 3600`), a second call with the same credentials at any `now2` with
`now2 + 300 < now1 + 3600` returns the identical token string without
invoking the issuer. -/
theorem token_cache_buffer :
    (∀ (cache : TokenCache) (now : Nat) (t c s r issued tok : String)
        (cache' : TokenCache),
      _get_cached_token cache now t c s r issued = (tok, cache', false) →
      ∃ e : TokenEntry, lookupA cache (cacheKeyOf t c r) = some e ∧
        now + 300 < e.expires_at ∧ tok = e.token ∧ cache' = cache)
    ∧
    (∀ (cache : TokenCache) (now1 now2 : Nat) (t c s r i1 i2 : String),
      (_get_cached_token cache now1 t c s r i1).2.2 = true →
      now2 + 300 < now1 + 3600 →
      (_get_cached_token (_get_cached_token cache now1 t c s r i1).2.1
          now2 t c s r i2).1
        = (_get_cached_token cache now1 t c s r i1).1
      ∧ (_get_cached_token (_get_cached_token cache now1 t c s r i1).2.1
          now2 t c s r i2).2.2 = false) := by
  constructor
  · intro cache now t c s r issued tok cache' h
    rcases hlk : lookupA cache (cacheKeyOf t c r) with _ | e
    · simp [_get_cached_token, hlk] at h
    · by_cases hexp : now + 300 < e.expires_at
      · simp only [_get_cached_token, hlk, hexp, if_pos, Prod.mk.injEq] at h
        exact ⟨e, rfl, hexp, h.1.symm, h.2.1.symm⟩
      · simp [_get_cached_token, hlk, hexp] at h
  · intro cache now1 now2 t c s r i1 i2 hissued htime
    have hstate :
        _get_cached_token cache now1 t c s r i1
          = (i1, updA cache (cacheKeyOf t c r) ⟨i1, now1 + 3600⟩, true) := by
      rcases hlk : lookupA cache (cacheKeyOf t c r) with _ | e
      · simp [_get_cached_token, hlk]
      · by_cases hexp : now1 + 300 < e.expires_at
        · exfalso
          simp [_get_cached_token, hlk, hexp] at hissued
        · simp [_get_cached_token, hlk, hexp]
    rw [hstate]
    simp [_get_cached_token, lookupA_updA_self, htime]

/-- C4 witness: starting from an empty cache, the first call at time 0 invokes
the issuer, and a second call at time 1 (inside the buffer window) returns the
same token without invoking the issuer. -/
theorem token_cache_buffer_witness :
    (_get_cached_token (_get_cached_token [] 0 "t" "c" "s" "r" "tok1").2.1
        1 "t" "c" "s" "r" "tok2").1
      = (_get_cached_token [] 0 "t" "c" "s" "r" "tok1").1
    ∧ (_get_cached_token (_get_cached_token [] 0 "t" "c" "s" "r" "tok1").2.1
        1 "t" "c" "s" "r" "tok2").2.2 = false :=
  token_cache_buffer.2 [] 0 1 "t" "c" "s" "r" "tok1" "tok2" (by decide) (by decide)

/- ------------------------------------------------------------------ -/
/- Hierarchy reorganizer lemmas                                        -/
/- ------------------------------------------------------------------ -/

theorem find?_append_cases {α : Type} (l₁ l₂ : List α) (p : α → Bool) :
    (l₁ ++ l₂).find? p =
      match l₁.find? p with
      | some x => some x
      | none => l₂.find? p := by
  induction l₁ with
  | nil => simp
  | cons a l ih =>
    by_cases h : p a
    · simp [List.find?, h]
    · simp [List.find?, h, ih]

/-- One reorganization step changes exactly the slot at the record's triple. -/
theorem lookup3_reorgStep (h : Hier) (v : Rec) (p d k : JVal) :
    lookup3 (reorgStep h v) p d k =
      if tripleOf v = (p, d, k) then some v else lookup3 h p d k := by
  by_cases hp : platformOf v = p
  case neg =>
    have ht : tripleOf v ≠ (p, d, k) := fun hc =>
      hp (congrArg (fun t => t.1) hc)
    rw [if_neg ht]
    simp only [reorgStep, lookup3]
    rw [lookupA_updA_ne _ _ _ _ hp]
  case pos =>
  by_cases hd : deviceOf v = d
  case neg =>
    have ht : tripleOf v ≠ (p, d, k) := fun hc =>
      hd (congrArg (fun t => t.2.1) hc)
    rw [if_neg ht]
    subst hp
    simp only [reorgStep, lookup3, lookupA_updA_self]
    rw [lookupA_updA_ne _ _ _ _ hd]
    rcases hro : lookupA h (platformOf v) with _ | dm
    · simp [lookupA]
    · simp
  case pos =>
  by_cases hk : cveKeyOf v = k
  case neg =>
    have ht : tripleOf v ≠ (p, d, k) := fun hc =>
      hk (congrArg (fun t => t.2.2) hc)
    rw [if_neg ht]
    subst hp
    subst hd
    simp only [reorgStep, lookup3, lookupA_updA_self]
    rw [lookupA_updA_ne _ _ _ _ hk]
    rcases hro : lookupA h (platformOf v) with _ | dm
    · simp [lookupA]
    · rcases hrd : lookupA dm (deviceOf v) with _ | cm
      · simp [hrd, lookupA]
      · simp [hrd]
  case pos =>
    have ht : tripleOf v = (p, d, k) := by
      simp [tripleOf, hp, hd, hk]
    rw [if_pos ht]
    subst hp
    subst hd
    subst hk
    simp [reorgStep, lookup3, lookupA_updA_self]

/-- Folding the reorganization step: the slot at (p, d, k) holds the last
input record filed under that triple, else whatever the accumulator held. -/
theorem lookup3_foldl_reorgStep (vs : List Rec) (h : Hier) (p d k : JVal) :
    lookup3 (vs.foldl reorgStep h) p d k =
      match vs.reverse.find? (fun r => decide (tripleOf r = (p, d, k))) with
      | some r => some r
      | none => lookup3 h p d k := by
  induction vs generalizing h with
  | nil => simp
  | cons v vs ih =>
    rw [List.foldl_cons, ih (reorgStep h v)]
    rw [List.reverse_cons, find?_append_cases]
    rcases hf : vs.reverse.find? (fun r => decide (tripleOf r = (p, d, k))) with _ | r
    · simp only [List.find?]
      by_cases hv : tripleOf v = (p, d, k)
      · simp [hv, lookup3_reorgStep]
      · simp [hv, lookup3_reorgStep, if_neg]
    · rfl

/-- Well-formedness of a hierarchy: keys are pairwise distinct at each level. -/
def hierWF (h : Hier) : Prop :=
  keysNodup h ∧ ∀ p dm, (p, dm) ∈ h →
    keysNodup dm ∧ ∀ d cm, (d, cm) ∈ dm → keysNodup cm

theorem hierWF_reorgStep (h : Hier) (v : Rec) (hwf : hierWF h) :
    hierWF (reorgStep h v) := by
  obtain ⟨h1, h2⟩ := hwf
  have hdm : keysNodup ((lookupA h (platformOf v)).getD []) := by
    rcases hro : lookupA h (platformOf v) with _ | dm
    · simp [keysNodup]
    · exact (h2 _ _ (lookupA_mem _ _ _ hro)).1
  have hcm : ∀ d cm, (d, cm) ∈ (lookupA h (platformOf v)).getD [] → keysNodup cm := by
    rcases hro : lookupA h (platformOf v) with _ | dm
    · intro d cm hmem
      simp at hmem
    · intro d cm hmem
      exact (h2 _ _ (lookupA_mem _ _ _ hro)).2 d cm hmem
  have hcm0 : keysNodup ((lookupA ((lookupA h (platformOf v)).getD [])
      (deviceOf v)).getD []) := by
    rcases hrd : lookupA ((lookupA h (platformOf v)).getD []) (deviceOf v) with _ | cm
    · simp [keysNodup]
    · exact hcm _ _ (lookupA_mem _ _ _ hrd)
  constructor
  · exact keysNodup_updA _ _ _ h1
  · intro p dm hmem
    rcases updA_mem _ _ _ _ hmem with heq | hold
    · rw [Prod.mk.injEq] at heq
      obtain ⟨hp', hdm'⟩ := heq
      subst hdm'
      constructor
      · exact keysNodup_updA _ _ _ hdm
      · intro d cm hmem'
        rcases updA_mem _ _ _ _ hmem' with heq' | hold'
        · have : cm = updA ((lookupA ((lookupA h (platformOf v)).getD [])
              (deviceOf v)).getD []) (cveKeyOf v) v := by
            injection heq'
          subst this
          exact keysNodup_updA _ _ _ hcm0
        · exact hcm _ _ hold'
    · constructor
      · exact (h2 _ _ hold).1
      · exact (h2 _ _ hold).2

/- ------------------------------------------------------------------ -/
/- C5, C6, C10: the hierarchy reorganizer                              -/
/- ------------------------------------------------------------------ -/

/-- C5: reorganize files every input record under its (platform, device, key)
triple with last-write-wins: the hierarchy's slot at any (p, d, k) holds
exactly the last input record whose triple is (p, d, k) (none if no such
record), and each level of the hierarchy has pairwise-distinct keys, so each
path holds exactly one entry. -/
theorem reorganize_last_write_wins (vs : List Rec) :
    (∀ p d k : JVal,
      lookup3 (_reorganize_vulnerabilities_by_hierarchy vs) p d k =
        vs.reverse.find? (fun r => decide (tripleOf r = (p, d, k))))
    ∧ hierWF (_reorganize_vulnerabilities_by_hierarchy vs) := by
  constructor
  · intro p d k
    simp only [_reorganize_vulnerabilities_by_hierarchy]
    rw [lookup3_foldl_reorgStep]
    rcases vs.reverse.find? (fun r => decide (tripleOf r = (p, d, k))) with _ | r
    · simp [lookup3, lookupA]
    · rfl
  · simp only [_reorganize_vulnerabilities_by_hierarchy]
    have hfold : ∀ (l : List Rec) (h : Hier), hierWF h → hierWF (l.foldl reorgStep h) := by
      intro l
      induction l with
      | nil => exact fun h hw => hw
      | cons v l ih => exact fun h hw => ih _ (hierWF_reorgStep h v hw)
    refine hfold vs [] ⟨by simp [keysNodup], ?_⟩
    intro p dm hmem
    simp at hmem

/-- C6: the hierarchy key is the record's `cveId` when present and non-empty,
else `"{softwareName}_{softwareVersion}"` with `"Unknown"` for each absent
component; a record lacking `cveId` with softwareName "Foo" and
softwareVersion "1.0" gets key "Foo_1.0"; the key is the one under which
reorganize files the record.  (Reorganize itself is a total Lean function,
so it has no failure path.) -/
theorem key_derivation :
    (∀ (vuln : Rec) (s : String),
      getField vuln "cveId" = some (.str s) → s ≠ "" →
      cveKeyOf vuln = .str s)
    ∧ (∀ (vuln : Rec) (n v : String),
      getField vuln "cveId" = none →
      getField vuln "softwareName" = some (.str n) →
      getField vuln "softwareVersion" = some (.str v) →
      cveKeyOf vuln = .str (n ++ "_" ++ v))
    ∧ (∀ vuln : Rec,
      getField vuln "cveId" = none →
      getField vuln "softwareName" = none →
      getField vuln "softwareVersion" = none →
      cveKeyOf vuln = .str "Unknown_Unknown")
    ∧ cveKeyOf [("softwareName", .str "Foo"), ("softwareVersion", .str "1.0")]
        = .str "Foo_1.0"
    ∧ (∀ vuln : Rec,
      lookup3 (_reorganize_vulnerabilities_by_hierarchy [vuln])
        (platformOf vuln) (deviceOf vuln) (cveKeyOf vuln) = some vuln) := by
  refine ⟨?_, ?_, ?_, by rfl, ?_⟩
  · intro vuln s h hs
    have : s.isEmpty = false := by
      rcases hb : s.isEmpty with _ | _
      · rfl
      · exact absurd ((String.isEmpty_iff s).mp hb) hs
    simp [cveKeyOf, h, JVal.truthy, this]
  · intro vuln n v h1 h2 h3
    simp [cveKeyOf, h1, synthKey, h2, h3, JVal.pyStr]
  · intro vuln h1 h2 h3
    simp [cveKeyOf, h1, synthKey, h2, h3, JVal.pyStr]
  · intro vuln
    show lookup3 (reorgStep [] vuln) (platformOf vuln) (deviceOf vuln) (cveKeyOf vuln)
      = some vuln
    rw [lookup3_reorgStep]
    simp [tripleOf]

/-- C6 witness: a record with a non-empty `cveId` keeps it as its key. -/
theorem key_derivation_witness :
    cveKeyOf [("cveId", .str "CVE-1")] = .str "CVE-1" :=
  key_derivation.1 [("cveId", .str "CVE-1")] "CVE-1" rfl (by decide)

/-- C10: any record whose `cveId` field is present but falsy as a Python value
(empty string, null, numeric 0, boolean false) gets the synthesized
`"{softwareName}_{softwareVersion}"` key, not just records missing the field. -/
theorem falsy_cveId_synthesizes :
    (∀ (vuln : Rec) (v : JVal),
      getField vuln "cveId" = some v → v.truthy = false →
      cveKeyOf vuln = .str (synthKey vuln))
    ∧ cveKeyOf [("cveId", .str ""), ("softwareName", .str "Foo"),
        ("softwareVersion", .str "1.0")] = .str "Foo_1.0"
    ∧ cveKeyOf [("cveId", .null), ("softwareName", .str "Foo"),
        ("softwareVersion", .str "1.0")] = .str "Foo_1.0"
    ∧ cveKeyOf [("cveId", .num 0), ("softwareName", .str "Foo"),
        ("softwareVersion", .str "1.0")] = .str "Foo_1.0"
    ∧ cveKeyOf [("cveId", .bool false), ("softwareName", .str "Foo"),
        ("softwareVersion", .str "1.0")] = .str "Foo_1.0" := by
  refine ⟨?_, by rfl, by rfl, by rfl, by rfl⟩
  intro vuln v h hf
  simp [cveKeyOf, h, hf]

/-- C10 witness: a record with `cveId = null` falls back to the synthesized key. -/
theorem falsy_cveId_synthesizes_witness :
    cveKeyOf [("cveId", .null), ("softwareName", .str "Foo"),
        ("softwareVersion", .str "1.0")]
      = .str (synthKey [("cveId", .null), ("softwareName", .str "Foo"),
        ("softwareVersion", .str "1.0")]) :=
  falsy_cveId_synthesizes.1 [("cveId", .null), ("softwareName", .str "Foo"),
    ("softwareVersion", .str "1.0")] .null rfl rfl

/- ------------------------------------------------------------------ -/
/- Paginated fetch loop lemmas                                         -/
/- ------------------------------------------------------------------ -/

theorem initUrl_isEmpty (page_size : Nat) : (initUrl page_size).isEmpty = false := by
  rcases h : (initUrl page_size).isEmpty with _ | _
  · rfl
  · exfalso
    have hempty := (String.isEmpty_iff _).mp h
    have hlen := congrArg String.length hempty
    rw [initUrl, String.length_append] at hlen
    simp at hlen
    exact absurd hlen.1 (by decide)

/-- Exit invariant of the page loop: on normal exit the counter never
decreased, a still-truthy cursor means the loop stopped because the positive
page limit was reached, and the counter never exceeds a positive limit it
started below. -/
theorem fetchLoopAux_exit (server : String → HttpResponse) (max_pages : Nat) :
    ∀ (fuel : Nat) (url0 : Option String) (pf0 : Nat) (acc0 : List Rec)
      (url : Option String) (pf : Nat) (acc : List Rec),
      fetchLoopAux server max_pages fuel url0 pf0 acc0 = some (.ok (url, pf, acc)) →
      pf0 ≤ pf ∧ (urlTruthy url = true → max_pages ≠ 0 ∧ max_pages ≤ pf) ∧
        (max_pages ≠ 0 → pf0 ≤ max_pages → pf ≤ max_pages) := by
  intro fuel
  induction fuel with
  | zero =>
    intro url0 pf0 acc0 url pf acc h
    rcases url0 with _ | u
    · simp only [fetchLoopAux, Option.some.injEq, Except.ok.injEq, Prod.mk.injEq] at h
      obtain ⟨hu, hp, -⟩ := h
      subst hu
      subst hp
      exact ⟨le_refl _, fun ht => by simp [urlTruthy] at ht, fun _ hh => hh⟩
    · simp only [fetchLoopAux] at h
      by_cases he : u.isEmpty = true
      · rw [if_pos he] at h
        simp only [Option.some.injEq, Except.ok.injEq, Prod.mk.injEq] at h
        obtain ⟨hu, hp, -⟩ := h
        subst hu
        subst hp
        exact ⟨le_refl _, fun ht => by simp [urlTruthy, he] at ht, fun _ hh => hh⟩
      · rw [if_neg he] at h
        by_cases hc : max_pages ≠ 0 ∧ max_pages ≤ pf0
        · rw [if_pos hc] at h
          simp only [Option.some.injEq, Except.ok.injEq, Prod.mk.injEq] at h
          obtain ⟨hu, hp, -⟩ := h
          subst hu
          subst hp
          exact ⟨le_refl _, fun _ => hc, fun _ hle => le_antisymm hle hc.2 ▸ le_refl _⟩
        · rw [if_neg hc] at h
          simp at h
  | succ fuel' ih =>
    intro url0 pf0 acc0 url pf acc h
    rcases url0 with _ | u
    · simp only [fetchLoopAux, Option.some.injEq, Except.ok.injEq, Prod.mk.injEq] at h
      obtain ⟨hu, hp, -⟩ := h
      subst hu
      subst hp
      exact ⟨le_refl _, fun ht => by simp [urlTruthy] at ht, fun _ hh => hh⟩
    · simp only [fetchLoopAux] at h
      by_cases he : u.isEmpty = true
      · rw [if_pos he] at h
        simp only [Option.some.injEq, Except.ok.injEq, Prod.mk.injEq] at h
        obtain ⟨hu, hp, -⟩ := h
        subst hu
        subst hp
        exact ⟨le_refl _, fun ht => by simp [urlTruthy, he] at ht, fun _ hh => hh⟩
      · rw [if_neg he] at h
        by_cases hc : max_pages ≠ 0 ∧ max_pages ≤ pf0
        · rw [if_pos hc] at h
          simp only [Option.some.injEq, Except.ok.injEq, Prod.mk.injEq] at h
          obtain ⟨hu, hp, -⟩ := h
          subst hu
          subst hp
          exact ⟨le_refl _, fun _ => hc, fun _ hle => le_antisymm hle hc.2 ▸ le_refl _⟩
        · rw [if_neg hc] at h
          rcases hsrv : server u with ⟨value, nextLink⟩ | ⟨status, retryAfter⟩ | _
          · rw [hsrv] at h
            obtain ⟨ih1, ih2, ih3⟩ := ih _ _ _ _ _ _ h
            refine ⟨by omega, ih2, fun hmp hle => ?_⟩
            have hlt : pf0 < max_pages := by
              rcases Nat.lt_or_ge pf0 max_pages with hx | hx
              · exact hx
              · exact absurd ⟨hmp, hx⟩ hc
            exact ih3 hmp (by omega)
          · rw [hsrv] at h
            simp at h
          · rw [hsrv] at h
            simp at h

/-- C1: for every successful fetch, `has_more_data = true` implies the loop
stopped because the counter reached a positive `max_pages` while a truthy
continuation cursor remained (so `pages_fetched = max_pages`); conversely the
field is by construction the truthiness of the final cursor, and with
`max_pages = 0` — or when the server stopped supplying a continuation link —
it is `false`. -/
theorem hasMoreData_characterization (server : String → HttpResponse)
    (page_size max_pages fuel : Nat) (r : FetchResult)
    (h : _fetch_mdvm_vulnerabilities server page_size max_pages fuel = some (.ok r)) :
    (r.has_more_data = true → 0 < max_pages ∧ r.pages_fetched = max_pages)
    ∧ (max_pages = 0 → r.has_more_data = false) := by
  unfold _fetch_mdvm_vulnerabilities at h
  rcases hloop : fetchLoopAux server max_pages fuel (some (initUrl page_size)) 0 []
    with _ | res
  · rw [hloop] at h
    simp at h
  · rcases res with e | st
    · rw [hloop] at h
      simp at h
    · obtain ⟨url, pf, acc⟩ := st
      rw [hloop] at h
      simp only [Option.some.injEq, Except.ok.injEq] at h
      obtain ⟨e1, e2, e3⟩ := fetchLoopAux_exit server max_pages fuel _ _ _ _ _ _ hloop
      subst h
      constructor
      · intro hmd
        simp only at hmd
        obtain ⟨hmp, hle⟩ := e2 hmd
        exact ⟨Nat.pos_of_ne_zero hmp, le_antisymm (e3 hmp (Nat.zero_le _)) hle⟩
      · intro h0
        rcases hurl : urlTruthy url with _ | _
        · simp [hurl]
        · exact absurd h0 (e2 hurl).1

/-- C1 witness: a single-page server (no continuation link) under
`max_pages = 5` exits with `pages_fetched = 1` and `has_more_data = false`. -/
theorem hasMoreData_characterization_witness :
    (onePageResult.has_more_data = true →
      0 < 5 ∧ onePageResult.pages_fetched = 5)
    ∧ (5 = 0 → onePageResult.has_more_data = false) :=
  hasMoreData_characterization serverOnePage 10 5 5 onePageResult (by rfl)

/-- Under a positive page limit, a source with pages (and cursors) to spare
drives the loop to exactly `max_pages` fetched pages, exiting with a truthy
cursor still in hand. -/
theorem fetchLoopAux_chain (server : String → HttpResponse) (max_pages : Nat)
    (hmp : max_pages ≠ 0) :
    ∀ (n fuel pf : Nat) (u : String) (acc : List Rec),
      serverOkChain server u n = true → u.isEmpty = false →
      pf + n = max_pages → n ≤ fuel →
      ∃ (u' : String) (acc' : List Rec),
        fetchLoopAux server max_pages fuel (some u) pf acc
          = some (.ok (some u', max_pages, acc')) ∧ u'.isEmpty = false := by
  intro n
  induction n with
  | zero =>
    intro fuel pf u acc hchain hne hsum hfuel
    have hpf : pf = max_pages := by omega
    subst hpf
    refine ⟨u, acc, ?_, hne⟩
    rcases fuel with _ | fuel'
    · simp only [fetchLoopAux]
      rw [if_neg (by simp [hne]), if_pos ⟨hmp, le_refl _⟩]
    · simp only [fetchLoopAux]
      rw [if_neg (by simp [hne]), if_pos ⟨hmp, le_refl _⟩]
  | succ n ih =>
    intro fuel pf u acc hchain hne hsum hfuel
    rcases fuel with _ | fuel'
    · omega
    simp only [serverOkChain] at hchain
    rcases hsrv : server u with ⟨value, nextLink⟩ | ⟨status, retryAfter⟩ | _
    · rw [hsrv] at hchain
      rcases nextLink with _ | u'
      · simp at hchain
      · simp only [Bool.and_eq_true, Bool.not_eq_eq_eq_not, Bool.not_true] at hchain
        obtain ⟨hu', hchain'⟩ := hchain
        simp only [fetchLoopAux]
        rw [if_neg (by simp [hne]), if_neg (by rintro ⟨h1, h2⟩; omega), hsrv]
        exact ih fuel' (pf + 1) u' (acc ++ value.getD []) hchain' hu' (by omega) (by omega)
    · rw [hsrv] at hchain
      simp at hchain
    · rw [hsrv] at hchain
      simp at hchain

/-- With `max_pages = 0`, the loop follows the cursor chain to its natural
end: it fetches exactly the `n` pages the source has and exits with a
non-truthy cursor. -/
theorem fetchLoopAux_sourceLen (server : String → HttpResponse) :
    ∀ (n fuel pf : Nat) (url : Option String) (acc : List Rec),
      sourceLen server url n = true → n ≤ fuel →
      ∃ (url' : Option String) (acc' : List Rec),
        fetchLoopAux server 0 fuel url pf acc = some (.ok (url', pf + n, acc'))
        ∧ urlTruthy url' = false := by
  intro n
  induction n with
  | zero =>
    intro fuel pf url acc hlen hfuel
    refine ⟨url, acc, ?_, by simpa [sourceLen] using hlen⟩
    rcases url with _ | u
    · rcases fuel with _ | fuel' <;> simp [fetchLoopAux]
    · have hu : u.isEmpty = true := by
        simpa [sourceLen, urlTruthy] using hlen
      rcases fuel with _ | fuel' <;> simp [fetchLoopAux, hu]
  | succ n ih =>
    intro fuel pf url acc hlen hfuel
    rcases url with _ | u
    · simp [sourceLen] at hlen
    · rcases fuel with _ | fuel'
      · omega
      simp only [sourceLen, Bool.and_eq_true, Bool.not_eq_eq_eq_not, Bool.not_true] at hlen
      obtain ⟨hu, hlen'⟩ := hlen
      rcases hsrv : server u with ⟨value, nextLink⟩ | ⟨status, retryAfter⟩ | _
      · rw [hsrv] at hlen'
        obtain ⟨url', acc', heq, hurl'⟩ :=
          ih fuel' (pf + 1) nextLink (acc ++ value.getD []) hlen' (by omega)
        refine ⟨url', acc', ?_, hurl'⟩
        simp only [fetchLoopAux]
        rw [if_neg (by simp [hu]), if_neg (by rintro ⟨h1, h2⟩; exact h1 rfl), hsrv]
        show fetchLoopAux server 0 fuel' nextLink (pf + 1) (acc ++ value.getD [])
          = some (Except.ok (url', pf + (n + 1), acc'))
        rw [heq]
        have harith : pf + 1 + n = pf + (n + 1) := by omega
        rw [harith]
      · rw [hsrv] at hlen'
        simp at hlen'
      · rw [hsrv] at hlen'
        simp at hlen'

/-- C2: with `max_pages = N > 0` and a source offering more than `N` pages,
the fetch issues exactly `N` page requests and terminates reporting
`pages_fetched = N` with `has_more_data = true`; with `max_pages = 0` the
fetch terminates exactly when the source's cursor chain ends, having fetched
every one of its `n` pages, with `has_more_data = false`. -/
theorem page_limit_termination :
    (∀ (server : String → HttpResponse) (page_size max_pages fuel : Nat),
      0 < max_pages →
      serverOkChain server (initUrl page_size) max_pages = true →
      max_pages ≤ fuel →
      ∃ r : FetchResult,
        _fetch_mdvm_vulnerabilities server page_size max_pages fuel
          = some (.ok r) ∧ r.pages_fetched = max_pages ∧ r.has_more_data = true)
    ∧ (∀ (server : String → HttpResponse) (page_size n fuel : Nat),
      sourceLen server (some (initUrl page_size)) n = true →
      n ≤ fuel →
      ∃ r : FetchResult,
        _fetch_mdvm_vulnerabilities server page_size 0 fuel
          = some (.ok r) ∧ r.pages_fetched = n ∧ r.has_more_data = false) := by
  constructor
  · intro server page_size max_pages fuel hpos hchain hfuel
    obtain ⟨u', acc', heq, hne'⟩ :=
      fetchLoopAux_chain server max_pages (by omega) max_pages fuel 0
        (initUrl page_size) [] hchain (initUrl_isEmpty page_size) (by omega) hfuel
    refine ⟨FetchResult.mk acc' acc'.length max_pages (urlTruthy (some u')),
      ?_, rfl, ?_⟩
    · unfold _fetch_mdvm_vulnerabilities
      rw [heq]
    · simp [urlTruthy, hne']
  · intro server page_size n fuel hlen hfuel
    obtain ⟨url', acc', heq, hurl'⟩ :=
      fetchLoopAux_sourceLen server n fuel 0 (some (initUrl page_size)) [] hlen hfuel
    refine ⟨FetchResult.mk acc' acc'.length (0 + n) (urlTruthy url'),
      ?_, by simp, hurl'⟩
    unfold _fetch_mdvm_vulnerabilities
    rw [heq]

/-- C2 witness: an endless source under `max_pages = 2` stops after exactly 2
pages with more data available, and the one-page source under `max_pages = 0`
stops after its single page with no more data. -/
theorem page_limit_termination_witness :
    (∃ r : FetchResult,
      _fetch_mdvm_vulnerabilities serverEndless 10 2 2 = some (.ok r)
        ∧ r.pages_fetched = 2 ∧ r.has_more_data = true)
    ∧ (∃ r : FetchResult,
      _fetch_mdvm_vulnerabilities serverOnePage 10 0 1 = some (.ok r)
        ∧ r.pages_fetched = 1 ∧ r.has_more_data = false) :=
  ⟨page_limit_termination.1 serverEndless 10 2 2 (by decide) (by rfl) (by decide),
    page_limit_termination.2 serverOnePage 10 1 1 (by rfl) (by decide)⟩

/-- C8: when the page request ultimately fails with status 429, the fetch
raises the rate-limited error carrying the `Retry-After` header value when
present and `"60"` when the header is absent — so header `"45"` yields a
retry hint of 45 seconds and no header yields 60. -/
theorem rate_limited_classification (server : String → HttpResponse)
    (page_size max_pages fuel : Nat) (retryAfter : Option String)
    (h : server (initUrl page_size) = .httpError 429 retryAfter) :
    _fetch_mdvm_vulnerabilities server page_size max_pages (fuel + 1)
      = some (.error (.rateLimited (retryAfter.getD "60"))) := by
  unfold _fetch_mdvm_vulnerabilities
  simp only [fetchLoopAux]
  rw [if_neg (by simp [initUrl_isEmpty]), if_neg (by rintro ⟨h1, h2⟩; omega), h]
  show some (Except.error (classifyStatus 429 retryAfter))
    = some (Except.error (FetchError.rateLimited (retryAfter.getD "60")))
  simp [classifyStatus]

/-- C8 witness: a 429 with `Retry-After: 45` yields the rate-limited error
carrying "45"; rerunning the theorem with no header would carry "60". -/
theorem rate_limited_classification_witness :
    _fetch_mdvm_vulnerabilities server429 10 5 1
      = some (.error (.rateLimited "45")) :=
  rate_limited_classification server429 10 5 0 (some "45") (by rfl)

/-- C9: a successful page whose JSON body lacks the "value" field contributes
zero records: the loop step leaves the accumulator unchanged and simply moves
to the body's continuation cursor, incrementing the page counter, raising no
error. -/
theorem missing_value_field_skipped (server : String → HttpResponse)
    (max_pages fuel pf : Nat) (u : String) (acc : List Rec) (nl : Option String)
    (hok : server u = .ok none nl) (hu : u.isEmpty = false)
    (hcond : max_pages = 0 ∨ pf < max_pages) :
    fetchLoopAux server max_pages (fuel + 1) (some u) pf acc
      = fetchLoopAux server max_pages fuel nl (pf + 1) acc := by
  simp only [fetchLoopAux]
  rw [if_neg (by simp [hu]),
    if_neg (by rintro ⟨h1, h2⟩; rcases hcond with h | h; exact h1 h; omega), hok]
  show fetchLoopAux server max_pages fuel nl (pf + 1)
      (acc ++ (none : Option (List Rec)).getD [])
    = fetchLoopAux server max_pages fuel nl (pf + 1) acc
  simp

/-- C9 witness: one step on a body without "value" keeps the empty accumulator
and advances to the next cursor. -/
theorem missing_value_field_skipped_witness :
    fetchLoopAux serverNoValue 0 1 (some "u") 0 []
      = fetchLoopAux serverNoValue 0 0 (some "next") 1 [] :=
  missing_value_field_skipped serverNoValue 0 0 0 "u" [] (some "next")
    (by rfl) (by rfl) (Or.inl rfl)

end MDVM
